import Mathlib

/-
Verification development for the goodvibes backend core:
token lifecycle (src/services/Spotify.service.ts),
track metadata cache (services/trackCache.service.ts),
and the collection reconciler (src/services/Set.service.ts, the revision
that hydrates new ids in replaceSongs and recomputes images).

Machine times are modelled as Int epoch milliseconds.  Fallible upstream
calls are modelled as Option-valued environment functions (none = the
HTTP call threw / was non-2xx).  JavaScript Map objects are modelled as
association lists with replace-on-set semantics; Map.set overwrites the
previous binding for a key, and Map construction from an entry list
applies set left to right (later entries win).
-/

set_option autoImplicit false

namespace GoodVibes

/-- Association list keyed by strings, modelling a JS Map.  Lookup returns
the binding for the key; set replaces an existing binding in place or
appends a new one. -/
abbrev AList (α : Type) : Type := List (String × α)

/-- Lookup in an association list (JS Map.get). -/
def aGet {α : Type} (m : AList α) (k : String) : Option α :=
  match m with
  | [] => none
  | (k₁, v) :: rest => if k₁ = k then some v else aGet rest k

/-- Insert-or-replace in an association list (JS Map.set). -/
def aSet {α : Type} (m : AList α) (k : String) (v : α) : AList α :=
  match m with
  | [] => [(k, v)]
  | (k₁, v₁) :: rest => if k₁ = k then (k, v) :: rest else (k₁, v₁) :: aSet rest k v

/-- First-occurrence deduplication with an explicit seen accumulator. -/
def dedupKeep : List String → List String → List String
  | [], _ => []
  | x :: xs, seen =>
    if seen.contains x then dedupKeep xs seen else x :: dedupKeep xs (x :: seen)

/-- First-occurrence deduplication of a list of ids; models
Array.from(new Set(ids)), which preserves insertion (= first occurrence)
order. -/
def dedupFirst (l : List String) : List String := dedupKeep l []

/-- Artist entry as cached ({id, name}). -/
structure Artist where
  id : String
  name : String
deriving DecidableEq, Repr

/-- Upstream catalog track as returned by GET /tracks (a non-null entry of
the tracks array).  Fields of the upstream payload that the verified code
only copies opaquely into the cache document and never reads again
(album id/name, duration_ms, uri, external_urls, explicit, popularity)
are omitted; albumImage models t.album?.images?.[0]?.url. -/
structure SpotifyTrack where
  id : String
  name : String
  artists : List Artist
  albumImage : Option String
deriving DecidableEq, Repr

/-- Cached track document (models/trackCache.model.ts).  Artwork lives at
album.image, modelled here as albumImage; updatedAt is the mongoose
timestamp refreshed on upsert.  Opaque pass-through fields are omitted as
in SpotifyTrack. -/
structure TrackCacheDoc where
  trackId : String
  name : String
  artists : List Artist
  albumImage : Option String
  updatedAt : Int
deriving DecidableEq, Repr

/-- Cache freshness TTL: 7 days in milliseconds. -/
def CACHE_TTL_MS : Int := 1000 * 60 * 60 * 24 * 7

/-- Conversion of an upstream track into a cache document (mapTrack in
trackCache.service.ts); the source writes the document without updatedAt
and the in-memory fresh map receives it with updatedAt := now. -/
def mapTrack (now : Int) (t : SpotifyTrack) : TrackCacheDoc :=
  { trackId := t.id
  , name := t.name
  , artists := t.artists
  , albumImage := t.albumImage
  , updatedAt := now }

/-- Freshness map of getManyWithHydrate: trackId keyed map of cache
documents. -/
abbrev FreshMap : Type := AList TrackCacheDoc

/-- Environment of one getManyWithHydrate call: the TrackCache collection,
the current clock, and the upstream bulk-fetch endpoint.  The upstream
function receives one chunk of ids and yields the tracks array of the
response (entries are null for unknown ids), or none when the HTTP call
fails (network error / non-2xx).  The 429 backoff in the source only
sleeps and does not change any data, so it has no counterpart here. -/
structure HydrateEnv where
  store : List TrackCacheDoc
  now : Int
  upstream : List String → Option (List (Option SpotifyTrack))

/-- Ids a successful upstream response contributes documents for: non-null
entries with a non-empty id (the source filters !!t && !!t.id). -/
def docIds (raw : List (Option SpotifyTrack)) : List String :=
  ((raw.filterMap (fun t => t)).filter (fun t => t.id ≠ "")).map (fun t => t.id)

/-- Processing of one chunk of missing ids: on upstream failure the fresh
map is left unchanged (the catch branch logs and continues); on success
every usable returned track is upserted into the fresh map with
updatedAt := now. -/
def processChunk (env : HydrateEnv) (fresh : FreshMap) (chunk : List String) : FreshMap :=
  match env.upstream chunk with
  | none => fresh
  | some raw =>
    (((raw.filterMap (fun t => t)).filter (fun t => t.id ≠ "")).map (mapTrack env.now)).foldl
      (fun m d => aSet m d.trackId d) fresh

/-- Fuel-driven fixed-size chunking helper; the fuel only funds the
recursion (structural recursion keeps every definition kernel-reducible)
and never runs out when it starts at the list length. -/
def chunks50Aux : Nat → List String → List (List String)
  | _, [] => []
  | 0, _ :: _ => []
  | fuel + 1, x :: xs => ((x :: xs).take 50) :: chunks50Aux fuel ((x :: xs).drop 50)

/-- Fixed-size-50 chunking of the missing id list (the for-loop stepping
i by 50). -/
def chunks50 (l : List String) : List (List String) := chunks50Aux l.length l

/-- Fresh map built from the cache read: documents whose trackId is among
the deduplicated ids and which are within TTL, keyed by trackId. -/
def initialFresh (env : HydrateEnv) (ids : List String) : FreshMap :=
  ((env.store.filter (fun c => (dedupFirst ids).contains c.trackId)).filter
      (fun c => env.now - c.updatedAt < CACHE_TTL_MS)).foldl
    (fun m c => aSet m c.trackId c) []

/-- Deduplicated ids that are stale or absent in the cache. -/
def missingIds (env : HydrateEnv) (ids : List String) : List String :=
  (dedupFirst ids).filter (fun id => (aGet (initialFresh env ids) id).isNone)

/-- Fresh map after the chunked upstream fetch loop. -/
def finalFresh (env : HydrateEnv) (ids : List String) : FreshMap :=
  (chunks50 (missingIds env ids)).foldl (processChunk env) (initialFresh env ids)

/-- TrackCacheService.getManyWithHydrate.  The access token only feeds the
Authorization header of the upstream call, whose behaviour is the
environment function; it is Option-valued because the token lifecycle can
hand back undefined (see ensureAccessToken).  The result projects the
original, not deduplicated, input id sequence through the final fresh
map.  The durable bulkWrite upsert only mirrors the in-memory fresh map
into the store and does not influence the returned value of this call. -/
def getManyWithHydrate (env : HydrateEnv) (_accessToken : Option String)
    (ids : List String) : List TrackCacheDoc :=
  if missingIds env ids = [] then ids.filterMap (aGet (initialFresh env ids))
  else ids.filterMap (aGet (finalFresh env ids))

/-- Stored OAuth credential (SpotifyTokens, persisted as JSON in Redis).
The access_token is Option-valued because the refresh path can merge an
undefined access_token over the stored one (refreshAccessToken forwards
data.access_token unchecked and updateTokens spreads every key of the
refreshed object, explicit-undefined included, over the current record). -/
structure SpotifyTokens where
  access_token : Option String
  refresh_token : String
  token_type : Option String
  scope : Option String
  expires_at : Int
deriving DecidableEq, Repr

/-- Body of a 2xx response of the upstream token endpoint for the
refresh-token grant; every field may be absent. -/
structure RefreshData where
  access_token : Option String
  refresh_token : Option String
  token_type : Option String
  scope : Option String
  expires_in : Int
deriving DecidableEq, Repr

/-- SpotifyService.refreshAccessToken applied to a 2xx response: builds
the replacement credential.  data.access_token is forwarded without any
check; a missing refresh_token keeps the stored one. -/
def refreshAccessToken (now : Int) (refreshToken : String) (data : RefreshData) : SpotifyTokens :=
  { access_token := data.access_token
  , refresh_token := (data.refresh_token).getD refreshToken
  , token_type := data.token_type
  , scope := data.scope
  , expires_at := now + data.expires_in * 1000 }

/-- Failure kinds of the token lifecycle: noTokens models the thrown
Error "No tokens stored for user"; upstreamError models the axios POST of
the refresh grant rejecting (network error / non-2xx), which propagates
out of ensureAccessToken uncaught. -/
inductive TokenErr where
  | noTokens
  | upstreamError
deriving DecidableEq, Repr

/-- Environment of one ensureAccessToken call: the credential stored for
the owner, the clock, and the outcome of the upstream refresh call were
one issued (none = the HTTP call throws). -/
structure TokenEnv where
  stored : Option SpotifyTokens
  now : Int
  refreshResponse : Option RefreshData
deriving Repr

/-- SpotifyService.ensureAccessToken.  Returns the access token the
caller receives (Option String: the undefined-token bug can surface) and
the credential store after the call.  In the refresh branch the source
runs updateTokens, which overwrites every field of the stored record with
the refreshed object since that object carries all keys explicitly. -/
def ensureAccessToken (env : TokenEnv) : Except TokenErr (Option String) × Option SpotifyTokens :=
  match env.stored with
  | none => (Except.error TokenErr.noTokens, env.stored)
  | some tokens =>
    if env.now > tokens.expires_at - 60000 then
      match env.refreshResponse with
      | none => (Except.error TokenErr.upstreamError, env.stored)
      | some data =>
        let refreshed := refreshAccessToken env.now tokens.refresh_token data
        (Except.ok refreshed.access_token, some refreshed)
    else (Except.ok tokens.access_token, env.stored)

/-- Song entry of a collection (SetSong: {id, title, artists, image}). -/
structure SetSong where
  id : String
  title : String
  artists : List Artist
  image : Option String
deriving DecidableEq, Repr

/-- Collection document (set.model.ts), restricted to the fields the
reconciler reads or writes plus the invariant-bearing rest: owner,
collaborator ids, ordered songs, derived images, tags and name. -/
structure SetDoc where
  name : String
  createdBy : String
  collaborators : List String
  songs : List SetSong
  images : List String
  tags : List String
deriving DecidableEq, Repr

/-- SetRepository.isEditor: a findOne on _id together with
createdBy = user or collaborators containing user; an absent document
makes the query empty, so the answer is false. -/
def isEditor (store : Option SetDoc) (userId : String) : Bool :=
  match store with
  | none => false
  | some d => d.createdBy = userId || d.collaborators.contains userId

/-- Failure kinds of the reconciler: forbidden is the Error "Forbidden"
of assertCanEdit, setNotFound the Error "Set not found", and token wraps
an ensureAccessToken failure propagating out of addSongs/replaceSongs. -/
inductive SetErr where
  | forbidden
  | setNotFound
  | token (e : TokenErr)
deriving DecidableEq, Repr

/-- Normalization of an incoming id: "spotify:track:X" becomes X (the
source splits on ":" and takes the last segment), anything else is kept. -/
def normalize (v : String) : String :=
  if v.startsWith "spotify:track:" then (v.splitOn ":").getLastD v else v

/-- SetService.imagesFromSongs: the first up to 5 non-empty artwork URLs
across a song list, in list order (filter(Boolean) drops undefined and
empty strings). -/
def imagesFromSongs (songs : List SetSong) : List String :=
  if songs.isEmpty then []
  else (((songs.map (fun s => s.image)).filterMap (fun i => i)).filter (fun i => i ≠ "")).take 5

/-- Artwork a hydrated cache document contributes to a SetSong.  The
source reads h.image, then h.albumImage, then h.album.images[0].url;
TrackCacheDoc carries none of these properties (its artwork field is
album.image, singular), so every branch of the chain is undefined. -/
def hydratedImage (_h : TrackCacheDoc) : Option String := none

/-- Conversion of a hydrated cache document into a SetSong, shared by the
add and replace paths (trackId/name are present on every TrackCacheDoc,
so the h.id / h.trackName fallbacks of the source never fire). -/
def docToSong (h : TrackCacheDoc) : SetSong :=
  { id := h.trackId, title := h.name, artists := h.artists, image := hydratedImage h }

/-- Map from id to song object, as built by new Map(current.map(s =>
[s.id, s])): entries are set left to right, later entries win. -/
abbrev SongMap : Type := AList SetSong

/-- Construction of the id-to-song map of the current list. -/
def songMap (current : List SetSong) : SongMap :=
  current.foldl (fun m s => aSet m s.id s) []

/-- Result record of addSongs. -/
structure AddResult where
  songs : List SetSong
  added : Nat
  addedTracks : List TrackCacheDoc
  skipped : List String
deriving DecidableEq, Repr

/-- Result record of replaceSongs. -/
structure ReplaceResult where
  songs : List SetSong
  removedCount : Nat
  removed : List SetSong
  orderChanged : Bool
  length : Nat
deriving DecidableEq, Repr

/-- Hydrated documents of an addSongs call converted to SetSong objects;
documents with an empty trackId are dropped (the map-to-null / filter
step of the source). -/
def hydratedSongs (henv : HydrateEnv) (atok : Option String) (inc : List String) :
    List SetSong :=
  (getManyWithHydrate henv atok inc).filterMap
    (fun h => if h.trackId = "" then none else some (docToSong h))

/-- Post-authorization tail of addSongs for a non-empty incoming list:
hydrate, convert, append, persist the songs and persist the derived
images only when non-empty. -/
def addSongsApply (henv : HydrateEnv) (set : SetDoc) (accessToken : Option String)
    (incoming : List String) : Except SetErr AddResult × Option SetDoc :=
  (Except.ok
    { songs := set.songs ++ hydratedSongs henv accessToken incoming
    , added := (hydratedSongs henv accessToken incoming).length
    , addedTracks := getManyWithHydrate henv accessToken incoming
    , skipped := incoming.filter (fun id =>
        !((getManyWithHydrate henv accessToken incoming).map
            (fun t => t.trackId)).contains id) },
   some (if (imagesFromSongs (set.songs ++ hydratedSongs henv accessToken incoming)).isEmpty
    then { set with songs := set.songs ++ hydratedSongs henv accessToken incoming }
    else { set with
            songs := set.songs ++ hydratedSongs henv accessToken incoming,
            images := imagesFromSongs (set.songs ++ hydratedSongs henv accessToken incoming) }))

/-- Incoming ids of addSongs: deduplicated candidate ids not already in
the current list. -/
def incomingIds (set : SetDoc) (trackIds : List String) : List String :=
  (dedupFirst trackIds).filter (fun id => !(set.songs.map (fun s => s.id)).contains id)

/-- SetService.addSongs.  The editor check runs before the load; incoming
ids are deduplicated and stripped of ids already present; an empty
incoming list returns early without any write; otherwise the new ids are
hydrated, converted and appended, the songs are persisted, and the
derived images are persisted only when non-empty. -/
def addSongs (henv : HydrateEnv) (tenv : TokenEnv) (store : Option SetDoc)
    (userId : String) (trackIds : List String) :
    Except SetErr AddResult × Option SetDoc :=
  if isEditor store userId = false then (Except.error SetErr.forbidden, store)
  else
    match store with
    | none => (Except.error SetErr.setNotFound, store)
    | some set =>
      if (incomingIds set trackIds).isEmpty then
        (Except.ok { songs := set.songs, added := 0, addedTracks := [], skipped := [] },
         store)
      else
        match (ensureAccessToken tenv).1 with
        | Except.error e => (Except.error (SetErr.token e), store)
        | Except.ok accessToken => addSongsApply henv set accessToken (incomingIds set trackIds)

/-- Collection of the ids of finalOrder that need hydration: normalized,
first occurrence only (the seen set), and not already in the current
list. -/
def collectToHydrate (currentIds : List String) : List String → List String → List String
  | [], _ => []
  | id :: rest, seen =>
    let nid := normalize id
    if seen.contains nid then collectToHydrate currentIds rest seen
    else if currentIds.contains nid then collectToHydrate currentIds rest (nid :: seen)
    else nid :: collectToHydrate currentIds rest (nid :: seen)

/-- Hydrated-map construction of replaceSongs: hydrated documents keyed by
trackId after conversion to SetSong; documents with an empty trackId are
skipped (the if (!trackId) continue guard). -/
def buildHydratedMap (hydrated : List TrackCacheDoc) : SongMap :=
  hydrated.foldl (fun m h => if h.trackId = "" then m else aSet m h.trackId (docToSong h)) []

/-- Final-list construction of replaceSongs: walk finalOrder, normalize,
deduplicate against the accumulated nextIds, take the existing record
first and the hydrated one otherwise, drop ids neither resolves.  Returns
(next, nextIds) in push order; the accumulator only serves the membership
check. -/
def buildNextAux (idToSong : SongMap) (hm : SongMap) :
    List String → List String → List SetSong × List String
  | [], _ => ([], [])
  | rawId :: rest, nextIds =>
    let id := normalize rawId
    if nextIds.contains id then buildNextAux idToSong hm rest nextIds
    else
      match (aGet idToSong id).orElse (fun _ => aGet hm id) with
      | some song =>
        let p := buildNextAux idToSong hm rest (id :: nextIds)
        (song :: p.1, id :: p.2)
      | none => buildNextAux idToSong hm rest nextIds

/-- Tail of replaceSongs shared by the hydrating and non-hydrating paths:
build the final list, compute removed/orderChanged, persist songs and the
recomputed derived images (unconditionally, unlike addSongs). -/
def replaceFinish (set : SetDoc) (hm : SongMap) (finalOrder : List String) :
    Except SetErr ReplaceResult × Option SetDoc :=
  (Except.ok
    { songs := (buildNextAux (songMap set.songs) hm finalOrder []).1
    , removedCount := (set.songs.filter (fun s =>
        !((buildNextAux (songMap set.songs) hm finalOrder []).2).contains s.id)).length
    , removed := set.songs.filter (fun s =>
        !((buildNextAux (songMap set.songs) hm finalOrder []).2).contains s.id)
    , orderChanged :=
        set.songs.map (fun s => s.id) ≠ (buildNextAux (songMap set.songs) hm finalOrder []).2
    , length := (buildNextAux (songMap set.songs) hm finalOrder []).1.length },
   some { set with
     songs := (buildNextAux (songMap set.songs) hm finalOrder []).1,
     images := imagesFromSongs (buildNextAux (songMap set.songs) hm finalOrder []).1 })

/-- SetService.replaceSongs (the hydrating revision).  The editor check
runs before the load; the ids of finalOrder that are new are hydrated
(the access token is only requested when there is something to hydrate,
and a token failure propagates since only the hydration call itself is
inside the try); the final list follows finalOrder with first occurrence
winning and unresolved ids dropped; orderChanged compares the id
sequences via JSON.stringify, which is injective on string lists. -/
def replaceSongs (henv : HydrateEnv) (tenv : TokenEnv) (store : Option SetDoc)
    (userId : String) (finalOrder : List String) :
    Except SetErr ReplaceResult × Option SetDoc :=
  if isEditor store userId = false then (Except.error SetErr.forbidden, store)
  else
    match store with
    | none => (Except.error SetErr.setNotFound, store)
    | some set =>
      if (collectToHydrate (set.songs.map (fun s => s.id)) finalOrder []).isEmpty then
        replaceFinish set [] finalOrder
      else
        match (ensureAccessToken tenv).1 with
        | Except.error e => (Except.error (SetErr.token e), store)
        | Except.ok accessToken =>
          replaceFinish set
            (buildHydratedMap (getManyWithHydrate henv accessToken
              (collectToHydrate (set.songs.map (fun s => s.id)) finalOrder [])))
            finalOrder

/-! Basic lemmas about the map and deduplication helpers. -/

theorem contains_iff (l : List String) (a : String) : l.contains a = true ↔ a ∈ l :=
  List.elem_iff

theorem aGet_aSet {α : Type} (m : AList α) (k k₂ : String) (v : α) :
    aGet (aSet m k v) k₂ = if k = k₂ then some v else aGet m k₂ := by
  induction m with
  | nil => simp [aSet, aGet]
  | cons p rest ih =>
    obtain ⟨k₁, v₁⟩ := p
    by_cases h : k₁ = k
    · subst h
      by_cases h₂ : k₁ = k₂ <;> simp [aSet, aGet, h₂]
    · by_cases h₂ : k₁ = k₂
      · subst h₂
        have : ¬ k = k₁ := fun hh => h hh.symm
        simp [aSet, aGet, h, this]
      · simp [aSet, aGet, h, h₂, ih]

/-- Key consistency of an association list with respect to a key
projection: every stored value carries its own key. -/
abbrev aConsistent {α : Type} (f : α → String) (m : AList α) : Prop :=
  ∀ p ∈ m, f p.2 = p.1

theorem aConsistent_nil {α : Type} (f : α → String) : aConsistent f ([] : AList α) := by
  intro p hp; cases hp

theorem aConsistent_aSet {α : Type} {f : α → String} {m : AList α} {k : String} {v : α}
    (hm : aConsistent f m) (hv : f v = k) : aConsistent f (aSet m k v) := by
  induction m with
  | nil =>
    intro p hp
    simp only [aSet, List.mem_singleton] at hp
    subst hp; exact hv
  | cons q rest ih =>
    obtain ⟨k₁, v₁⟩ := q
    simp only [aSet]
    by_cases h : k₁ = k
    · simp only [if_pos h]
      intro p hp
      rcases List.mem_cons.mp hp with h₁ | h₁
      · subst h₁; exact hv
      · exact hm p (List.mem_cons_of_mem _ h₁)
    · simp only [if_neg h]
      intro p hp
      rcases List.mem_cons.mp hp with h₁ | h₁
      · subst h₁; exact hm ⟨k₁, v₁⟩ (List.mem_cons_self _ _)
      · exact ih (fun q hq => hm q (List.mem_cons_of_mem _ hq)) p h₁

theorem aConsistent_get {α : Type} {f : α → String} {m : AList α} {k : String} {v : α}
    (hm : aConsistent f m) (h : aGet m k = some v) : f v = k := by
  induction m with
  | nil => simp [aGet] at h
  | cons p rest ih =>
    obtain ⟨k₁, v₁⟩ := p
    simp only [aGet] at h
    by_cases hk : k₁ = k
    · rw [if_pos hk] at h
      obtain rfl : v₁ = v := by injection h
      have := hm ⟨k₁, v₁⟩ (List.mem_cons_self _ _)
      simpa [hk] using this
    · rw [if_neg hk] at h
      exact ih (fun q hq => hm q (List.mem_cons_of_mem _ hq)) h

theorem aGet_foldlSet_isSome {α : Type} (key : α → String) (l : List α) (m₀ : AList α)
    (k : String) :
    (aGet (l.foldl (fun m x => aSet m (key x) x) m₀) k).isSome
      ↔ (aGet m₀ k).isSome ∨ k ∈ l.map key := by
  induction l generalizing m₀ with
  | nil => simp
  | cons x rest ih =>
    simp only [List.foldl_cons, List.map_cons, List.mem_cons]
    rw [ih]
    constructor
    · rintro (h | h)
      · rw [aGet_aSet] at h
        by_cases hk : key x = k
        · exact Or.inr (Or.inl hk.symm)
        · rw [if_neg hk] at h
          exact Or.inl h
      · exact Or.inr (Or.inr h)
    · rintro (h | h | h)
      · left
        rw [aGet_aSet]
        by_cases hk : key x = k
        · simp [hk]
        · rwa [if_neg hk]
      · left
        rw [aGet_aSet, if_pos h.symm]
        rfl
      · exact Or.inr h

theorem aConsistent_foldlSet {α : Type} (key : α → String) (l : List α) {m₀ : AList α}
    (hm : aConsistent key m₀) :
    aConsistent key (l.foldl (fun m x => aSet m (key x) x) m₀) := by
  induction l generalizing m₀ with
  | nil => exact hm
  | cons x rest ih => exact ih (aConsistent_aSet hm rfl)

theorem aGet_foldlSet_of_notMem {α : Type} (key : α → String) (l : List α) (m₀ : AList α)
    (k : String) (h : ∀ x ∈ l, key x ≠ k) :
    aGet (l.foldl (fun m x => aSet m (key x) x) m₀) k = aGet m₀ k := by
  induction l generalizing m₀ with
  | nil => rfl
  | cons x rest ih =>
    simp only [List.foldl_cons]
    rw [ih _ (fun y hy => h y (List.mem_cons_of_mem _ hy))]
    rw [aGet_aSet, if_neg (h x (List.mem_cons_self _ _))]

theorem mem_dedupKeep (l seen : List String) (x : String) :
    x ∈ dedupKeep l seen ↔ x ∈ l ∧ x ∉ seen := by
  induction l generalizing seen with
  | nil => simp [dedupKeep]
  | cons y rest ih =>
    simp only [dedupKeep]
    by_cases h : seen.contains y = true
    · rw [if_pos h, ih]
      have hy : y ∈ seen := (contains_iff _ _).mp h
      simp only [List.mem_cons]
      constructor
      · rintro ⟨h₁, h₂⟩; exact ⟨Or.inr h₁, h₂⟩
      · rintro ⟨h₁ | h₁, h₂⟩
        · subst h₁; exact absurd hy h₂
        · exact ⟨h₁, h₂⟩
    · rw [if_neg h]
      have hy : y ∉ seen := fun hm => h ((contains_iff _ _).mpr hm)
      simp only [List.mem_cons, ih]
      constructor
      · rintro (h₁ | ⟨h₁, h₂⟩)
        · subst h₁; exact ⟨Or.inl rfl, hy⟩
        · refine ⟨Or.inr h₁, fun hs => h₂ (Or.inr hs)⟩
      · rintro ⟨h₁ | h₁, h₂⟩
        · subst h₁; exact Or.inl rfl
        · by_cases hxy : x = y
          · exact Or.inl hxy
          · refine Or.inr ⟨h₁, ?_⟩
            simp only [List.mem_cons, not_or]
            exact ⟨hxy, h₂⟩

theorem nodup_dedupKeep (l seen : List String) : (dedupKeep l seen).Nodup := by
  induction l generalizing seen with
  | nil => simp [dedupKeep]
  | cons y rest ih =>
    simp only [dedupKeep]
    by_cases h : seen.contains y = true
    · rw [if_pos h]; exact ih seen
    · rw [if_neg h]
      refine List.nodup_cons.mpr ⟨fun hy => ?_, ih (y :: seen)⟩
      exact ((mem_dedupKeep _ _ _).mp hy).2 (List.mem_cons_self _ _)

theorem mem_dedupFirst (l : List String) (x : String) : x ∈ dedupFirst l ↔ x ∈ l := by
  rw [dedupFirst, mem_dedupKeep]; simp

theorem nodup_dedupFirst (l : List String) : (dedupFirst l).Nodup := nodup_dedupKeep l []

theorem dedupKeep_eq_self (l : List String) (hl : l.Nodup) :
    ∀ seen : List String, (∀ x ∈ l, x ∉ seen) → dedupKeep l seen = l := by
  induction l with
  | nil => intro seen _; rfl
  | cons y rest ih =>
    intro seen hs
    simp only [dedupKeep]
    rw [if_neg (fun hc : seen.contains y = true =>
      hs y (List.mem_cons_self _ _) ((contains_iff _ _).mp hc))]
    congr 1
    refine ih (List.nodup_cons.mp hl).2 (y :: seen) ?_
    intro x hx
    simp only [List.mem_cons, not_or]
    exact ⟨fun hxy => (List.nodup_cons.mp hl).1 (hxy ▸ hx),
      hs x (List.mem_cons_of_mem _ hx)⟩

theorem dedupKeep_filter (p : String → Bool) (l : List String) :
    ∀ s₁ s₂ : List String, (∀ x, p x = true → (x ∈ s₁ ↔ x ∈ s₂)) →
      dedupKeep (l.filter p) s₁ = (dedupKeep l s₂).filter p := by
  induction l with
  | nil => intro s₁ s₂ _; rfl
  | cons y rest ih =>
    intro s₁ s₂ hagree
    by_cases hp : p y = true
    · rw [List.filter_cons_of_pos hp]
      simp only [dedupKeep]
      by_cases h₂ : s₂.contains y = true
      · have h₁ : s₁.contains y = true := by
          rw [contains_iff] at h₂ ⊢
          exact (hagree y hp).mpr h₂
        rw [if_pos h₁, if_pos h₂]
        exact ih s₁ s₂ hagree
      · have h₁ : ¬ s₁.contains y = true := by
          intro hc
          exact h₂ ((contains_iff _ _).mpr ((hagree y hp).mp ((contains_iff _ _).mp hc)))
        rw [if_neg h₁, if_neg h₂, List.filter_cons_of_pos hp]
        congr 1
        refine ih (y :: s₁) (y :: s₂) ?_
        intro x hx
        simp only [List.mem_cons]
        rw [hagree x hx]
    · rw [List.filter_cons_of_neg (by simpa using hp)]
      simp only [dedupKeep]
      by_cases h₂ : s₂.contains y = true
      · rw [if_pos h₂]
        exact ih s₁ s₂ hagree
      · rw [if_neg h₂, List.filter_cons_of_neg (by simpa using hp)]
        refine ih s₁ (y :: s₂) ?_
        intro x hx
        rw [hagree x hx]
        simp only [List.mem_cons]
        constructor
        · exact Or.inr
        · rintro (h | h)
          · subst h; exact absurd hx (by simp [hp])
          · exact h

theorem filterMap_aGet_map {α : Type} (f : α → String) (m : AList α)
    (hm : aConsistent f m) (l : List String) :
    (l.filterMap (aGet m)).map f = l.filter (fun k => (aGet m k).isSome) := by
  induction l with
  | nil => rfl
  | cons k rest ih =>
    simp only [List.filterMap_cons, List.filter_cons]
    cases h : aGet m k with
    | none => simpa [h] using ih
    | some v =>
      have : f v = k := aConsistent_get hm h
      simp [h, this, ih]

/-! Characterization of the hydration pipeline. -/

theorem chunks50Aux_nil (fuel : Nat) : chunks50Aux fuel [] = [] := by
  cases fuel <;> rfl

theorem chunks50Aux_congr (m : Nat) :
    ∀ (n : Nat) (l : List String), l.length ≤ m → l.length ≤ n →
      chunks50Aux m l = chunks50Aux n l := by
  induction m with
  | zero =>
    intro n l hm _
    have : l = [] := List.eq_nil_of_length_eq_zero (Nat.le_zero.mp hm)
    subst this
    rw [chunks50Aux_nil, chunks50Aux_nil]
  | succ m ih =>
    intro n l hm hn
    cases l with
    | nil => rw [chunks50Aux_nil, chunks50Aux_nil]
    | cons x xs =>
      cases n with
      | zero => simp at hn
      | succ n =>
        show ((x :: xs).take 50) :: chunks50Aux m ((x :: xs).drop 50)
            = ((x :: xs).take 50) :: chunks50Aux n ((x :: xs).drop 50)
        congr 1
        refine ih n _ ?_ ?_
        · simp only [List.length_drop, List.length_cons]
          simp only [List.length_cons] at hm
          omega
        · simp only [List.length_drop, List.length_cons]
          simp only [List.length_cons] at hn
          omega

theorem chunks50_nil : chunks50 [] = [] := rfl

theorem chunks50_cons (x : String) (xs : List String) :
    chunks50 (x :: xs) = ((x :: xs).take 50) :: chunks50 ((x :: xs).drop 50) := by
  show ((x :: xs).take 50) :: chunks50Aux xs.length ((x :: xs).drop 50)
      = ((x :: xs).take 50) :: chunks50Aux ((x :: xs).drop 50).length ((x :: xs).drop 50)
  congr 1
  refine chunks50Aux_congr _ _ _ ?_ Nat.le.refl
  simp only [List.length_drop, List.length_cons]
  omega

theorem chunks50_flatten (l : List String) : (chunks50 l).flatten = l := by
  cases l with
  | nil => rfl
  | cons x xs =>
    rw [chunks50_cons, List.flatten_cons, chunks50_flatten ((x :: xs).drop 50),
      List.take_append_drop]
termination_by l.length
decreasing_by simp; omega

theorem aGet_foldl_processChunk_isSome (env : HydrateEnv) (chunks : List (List String))
    (m₀ : FreshMap) (k : String) :
    (aGet (chunks.foldl (processChunk env) m₀) k).isSome
      ↔ (aGet m₀ k).isSome
        ∨ ∃ c ∈ chunks, ∃ raw, env.upstream c = some raw ∧ k ∈ docIds raw := by
  induction chunks generalizing m₀ with
  | nil => simp
  | cons c rest ih =>
    simp only [List.foldl_cons]
    rw [ih]
    have hstep : (aGet (processChunk env m₀ c) k).isSome
        ↔ (aGet m₀ k).isSome ∨ ∃ raw, env.upstream c = some raw ∧ k ∈ docIds raw := by
      unfold processChunk
      cases h : env.upstream c with
      | none => simp [h]
      | some raw =>
        rw [aGet_foldlSet_isSome]
        simp only [h, Option.some.injEq, docIds]
        constructor
        · rintro (hh | hh)
          · exact Or.inl hh
          · refine Or.inr ⟨raw, rfl, ?_⟩
            simpa [List.map_map, Function.comp, mapTrack] using hh
        · rintro (hh | ⟨raw₂, hraw, hh⟩)
          · exact Or.inl hh
          · obtain rfl : raw = raw₂ := hraw
            refine Or.inr ?_
            simpa [List.map_map, Function.comp, mapTrack] using hh
    rw [hstep]
    constructor
    · rintro ((h | h) | h)
      · exact Or.inl h
      · exact Or.inr ⟨c, List.mem_cons_self _ _, h⟩
      · obtain ⟨c₂, hc₂, hr⟩ := h
        exact Or.inr ⟨c₂, List.mem_cons_of_mem _ hc₂, hr⟩
    · rintro (h | ⟨c₂, hc₂, hr⟩)
      · exact Or.inl (Or.inl h)
      · rcases List.mem_cons.mp hc₂ with h₁ | h₁
        · subst h₁; exact Or.inl (Or.inr hr)
        · exact Or.inr ⟨c₂, h₁, hr⟩

theorem mem_missingIds (env : HydrateEnv) (ids : List String) (k : String) :
    k ∈ missingIds env ids ↔ k ∈ dedupFirst ids ∧ aGet (initialFresh env ids) k = none := by
  simp [missingIds, List.mem_filter, Option.isNone_iff_eq_none]

theorem nodup_missingIds (env : HydrateEnv) (ids : List String) :
    (missingIds env ids).Nodup :=
  (nodup_dedupFirst ids).filter _

theorem aConsistent_initialFresh (env : HydrateEnv) (ids : List String) :
    aConsistent (fun d => d.trackId) (initialFresh env ids) :=
  aConsistent_foldlSet _ _ (aConsistent_nil _)

theorem aConsistent_foldl_processChunk (env : HydrateEnv) (chunks : List (List String))
    {m₀ : FreshMap} (hm : aConsistent (fun d => d.trackId) m₀) :
    aConsistent (fun d => d.trackId) (chunks.foldl (processChunk env) m₀) := by
  induction chunks generalizing m₀ with
  | nil => exact hm
  | cons c rest ih =>
    refine ih ?_
    unfold processChunk
    cases env.upstream c with
    | none => exact hm
    | some raw => exact aConsistent_foldlSet _ _ hm

theorem aConsistent_finalFresh (env : HydrateEnv) (ids : List String) :
    aConsistent (fun d => d.trackId) (finalFresh env ids) :=
  aConsistent_foldl_processChunk env _ (aConsistent_initialFresh env ids)

theorem getManyWithHydrate_eq_filterMap (env : HydrateEnv) (tok : Option String)
    (ids : List String) :
    getManyWithHydrate env tok ids = ids.filterMap (aGet (finalFresh env ids)) := by
  unfold getManyWithHydrate
  by_cases h : missingIds env ids = []
  · rw [if_pos h]
    unfold finalFresh
    rw [h, chunks50_nil]
    rfl
  · rw [if_neg h]

theorem getManyWithHydrate_trackIds (env : HydrateEnv) (tok : Option String)
    (ids : List String) :
    (getManyWithHydrate env tok ids).map (fun d => d.trackId)
      = ids.filter (fun k => (aGet (finalFresh env ids) k).isSome) := by
  rw [getManyWithHydrate_eq_filterMap]
  exact filterMap_aGet_map _ _ (aConsistent_finalFresh env ids) ids

theorem finalFresh_isSome (env : HydrateEnv) (ids : List String) (k : String) :
    (aGet (finalFresh env ids) k).isSome
      ↔ (aGet (initialFresh env ids) k).isSome
        ∨ ∃ c ∈ chunks50 (missingIds env ids),
            ∃ raw, env.upstream c = some raw ∧ k ∈ docIds raw :=
  aGet_foldl_processChunk_isSome env _ _ k

/-! Concrete scenarios used by counterexamples and witnesses. -/

/-- Cache document that is fresh at clock 0. -/
def dupDoc : TrackCacheDoc :=
  { trackId := "a", name := "A", artists := [], albumImage := none, updatedAt := 0 }

/-- Environment with one fresh cache entry and a dead upstream. -/
def dupEnv : HydrateEnv := { store := [dupDoc], now := 0, upstream := fun _ => none }

/-- Claim C2 as frozen: hydrate returns exactly one record per distinct
resolved id with no duplicate records.  Falsified: the final projection
maps the original input sequence, so the repeated id "a" (fresh in the
cache) yields its record twice. -/
theorem claim_C2_counterexample :
    (getManyWithHydrate dupEnv (some "tok") ["a", "a"]).map (fun d => d.trackId) = ["a", "a"]
    ∧ ¬ ((getManyWithHydrate dupEnv (some "tok") ["a", "a"]).map
          (fun d => d.trackId)).Nodup := by
  exact ⟨rfl, by decide⟩

/-- Claim C2 (amended): hydrate returns one record per occurrence of each
id that resolved (fresh in the cache, or fetched by a successful upstream
chunk of the deduplicated missing ids), projecting the full input
sequence in input order; repeated input ids therefore yield repeated
records, while lookups and fetches are deduplicated. -/
theorem claim_C2_amended (env : HydrateEnv) (tok : Option String) (ids : List String) :
    (getManyWithHydrate env tok ids).map (fun d => d.trackId)
      = ids.filter (fun k => (aGet (finalFresh env ids) k).isSome)
    ∧ ∀ k : String,
        (aGet (finalFresh env ids) k).isSome
          ↔ ((aGet (initialFresh env ids) k).isSome
              ∨ ∃ c ∈ chunks50 (missingIds env ids),
                  ∃ raw, env.upstream c = some raw ∧ k ∈ docIds raw) :=
  ⟨getManyWithHydrate_trackIds env tok ids, fun k => finalFresh_isSome env ids k⟩

/-! Token lifecycle claims. -/

/-- Credential 30 seconds from expiry at clock 0. -/
def tokensBugW : SpotifyTokens :=
  { access_token := some "old", refresh_token := "r", token_type := none
  , scope := none, expires_at := 30000 }

/-- Upstream 2xx refresh response carrying no access_token. -/
def refreshNoTokenW : RefreshData :=
  { access_token := none, refresh_token := none, token_type := none
  , scope := none, expires_in := 3600 }

/-- Refresh scenario whose upstream answers 2xx without a token. -/
def envBugW : TokenEnv :=
  { stored := some tokensBugW, now := 0, refreshResponse := some refreshNoTokenW }

/-- Refresh scenario whose upstream call throws. -/
def envErrW : TokenEnv :=
  { stored := some tokensBugW, now := 0, refreshResponse := none }

/-- Claim C4: evaluation at the failing input.  With the credential 30s
from expiry and a 2xx refresh response lacking access_token,
ensureAccessToken returns successfully with an undefined token and
persists a credential whose access_token is undefined, contradicting the
claim (and the declared Promise of string return type); the
upstream-error half of the claim does hold (second conjunct). -/
theorem claim_C4_code_bug :
    ensureAccessToken envBugW
      = (Except.ok none,
         some { access_token := none, refresh_token := "r", token_type := none
              , scope := none, expires_at := 3600000 })
    ∧ ensureAccessToken envErrW = (Except.error TokenErr.upstreamError, some tokensBugW) :=
  ⟨rfl, rfl⟩

/-- Credential exactly 60 seconds from expiry at clock 0. -/
def tokens60W : SpotifyTokens :=
  { access_token := some "stored", refresh_token := "r", token_type := none
  , scope := none, expires_at := 60000 }

/-- Working refresh response returning the token "new". -/
def refreshOkW : RefreshData :=
  { access_token := some "new", refresh_token := none, token_type := none
  , scope := none, expires_in := 3600 }

/-- Boundary scenario: expiry exactly 60 seconds away, working upstream. -/
def env60W : TokenEnv :=
  { stored := some tokens60W, now := 0, refreshResponse := some refreshOkW }

/-- Claim C8 as frozen says an expiry 60 seconds or less away triggers a
refresh.  Falsified at the boundary: with expiry exactly 60s away and a
working refresh endpoint, the strict comparison now > expiresAt - 60s is
false, so the stored token is returned and nothing is persisted. -/
theorem claim_C8_counterexample :
    ensureAccessToken env60W = (Except.ok (some "stored"), some tokens60W)
    ∧ (some "stored" : Option String) ≠ some "new" :=
  ⟨rfl, by decide⟩

/-- Claim C8 (amended): with a stored credential, an expiry strictly more
than 60s in the future returns the stored access token with the store
untouched (for every upstream behaviour, hence no upstream call can have
been made), and an expiry strictly less than 60s away refreshes, persists
the rebuilt credential and returns its token. -/
theorem claim_C8_amended (env : TokenEnv) (tokens : SpotifyTokens)
    (hstored : env.stored = some tokens) :
    (env.now + 60000 < tokens.expires_at →
      ensureAccessToken env = (Except.ok tokens.access_token, some tokens))
    ∧ (tokens.expires_at - 60000 < env.now →
        ∀ data : RefreshData, env.refreshResponse = some data →
          ∀ t : String, data.access_token = some t →
            ensureAccessToken env
              = (Except.ok (some t),
                 some (refreshAccessToken env.now tokens.refresh_token data))) := by
  obtain ⟨st, nw, rr⟩ := env
  simp only at hstored
  subst hstored
  constructor
  · intro hfresh
    simp only at hfresh
    show (if nw > tokens.expires_at - 60000 then _ else _) = _
    rw [if_neg (by omega)]
  · intro hstale data hdata t htok
    simp only at hstale hdata
    subst hdata
    show (if nw > tokens.expires_at - 60000 then _ else _) = _
    rw [if_pos (by omega)]
    simp only [refreshAccessToken, htok]

/-- Credential a whole hour from expiry at clock 0. -/
def tokens3600W : SpotifyTokens :=
  { access_token := some "stored", refresh_token := "r", token_type := none
  , scope := none, expires_at := 3600000 }

/-- Fresh-credential scenario (upstream would answer, but must not be
consulted). -/
def envFreshW : TokenEnv :=
  { stored := some tokens3600W, now := 0, refreshResponse := some refreshOkW }

/-- Stale-credential scenario: 30 seconds left, working upstream. -/
def envStaleW : TokenEnv :=
  { stored := some tokensBugW, now := 0, refreshResponse := some refreshOkW }

/-- Witness for the amended claim C8 at the spec's own example inputs:
expiry now+3600s returns the stored token unchanged, expiry now+30s
refreshes, persists and returns "new". -/
theorem claim_C8_witness :
    ensureAccessToken envFreshW = (Except.ok (some "stored"), some tokens3600W)
    ∧ ensureAccessToken envStaleW
        = (Except.ok (some "new"),
           some (refreshAccessToken envStaleW.now tokensBugW.refresh_token refreshOkW)) :=
  ⟨(claim_C8_amended envFreshW tokens3600W rfl).1 (by decide),
   (claim_C8_amended envStaleW tokensBugW rfl).2 (by decide) refreshOkW rfl "new" rfl⟩

/-! Absent-collection and failure-atomicity claims. -/

/-- Hydration environment with empty cache and dead upstream. -/
def henvTriv : HydrateEnv := { store := [], now := 0, upstream := fun _ => none }

/-- Token environment with no stored credential. -/
def tenvTriv : TokenEnv := { stored := none, now := 0, refreshResponse := none }

/-- Claim C3 as frozen says an absent collection fails with NotFound.
Falsified: the editor check runs first and isEditor is false for an
absent document, so both operations fail with Forbidden instead. -/
theorem claim_C3_counterexample :
    addSongs henvTriv tenvTriv none "u" ["x"] = (Except.error SetErr.forbidden, none)
    ∧ replaceSongs henvTriv tenvTriv none "u" ["x"] = (Except.error SetErr.forbidden, none)
    ∧ SetErr.forbidden ≠ SetErr.setNotFound :=
  ⟨rfl, rfl, by decide⟩

/-- Claim C3 (amended): for every actor and every absent collection,
addSongs and replaceSongs fail with Forbidden — the authorization check
precedes the load and an absent document is treated as not editable, so
the NotFound branch is unreachable for an absent collection. -/
theorem claim_C3_amended (henv : HydrateEnv) (tenv : TokenEnv) (userId : String)
    (ids : List String) :
    addSongs henv tenv none userId ids = (Except.error SetErr.forbidden, none)
    ∧ replaceSongs henv tenv none userId ids = (Except.error SetErr.forbidden, none) :=
  ⟨rfl, rfl⟩

theorem addSongs_ok_or_snd (henv : HydrateEnv) (tenv : TokenEnv) (store : Option SetDoc)
    (userId : String) (ids : List String) :
    (∃ r, (addSongs henv tenv store userId ids).1 = Except.ok r)
    ∨ (addSongs henv tenv store userId ids).2 = store := by
  unfold addSongs
  split
  · exact Or.inr rfl
  · split
    · exact Or.inr rfl
    · split
      · exact Or.inl ⟨_, rfl⟩
      · split
        · exact Or.inr rfl
        · exact Or.inl ⟨_, rfl⟩

theorem replaceSongs_ok_or_snd (henv : HydrateEnv) (tenv : TokenEnv) (store : Option SetDoc)
    (userId : String) (finalOrder : List String) :
    (∃ r, (replaceSongs henv tenv store userId finalOrder).1 = Except.ok r)
    ∨ (replaceSongs henv tenv store userId finalOrder).2 = store := by
  unfold replaceSongs
  split
  · exact Or.inr rfl
  · split
    · exact Or.inr rfl
    · split
      · exact Or.inl ⟨_, rfl⟩
      · split
        · exact Or.inr rfl
        · exact Or.inl ⟨_, rfl⟩

theorem addSongs_error_snd (henv : HydrateEnv) (tenv : TokenEnv) (store : Option SetDoc)
    (userId : String) (ids : List String) (e : SetErr)
    (h : (addSongs henv tenv store userId ids).1 = Except.error e) :
    (addSongs henv tenv store userId ids).2 = store := by
  rcases addSongs_ok_or_snd henv tenv store userId ids with ⟨r, hr⟩ | hs
  · rw [hr] at h
    cases h
  · exact hs

theorem replaceSongs_error_snd (henv : HydrateEnv) (tenv : TokenEnv) (store : Option SetDoc)
    (userId : String) (finalOrder : List String) (e : SetErr)
    (h : (replaceSongs henv tenv store userId finalOrder).1 = Except.error e) :
    (replaceSongs henv tenv store userId finalOrder).2 = store := by
  rcases replaceSongs_ok_or_snd henv tenv store userId finalOrder with ⟨r, hr⟩ | hs
  · rw [hr] at h
    cases h
  · exact hs

/-- Claim C10: whenever addSongs or replaceSongs fails with Forbidden or
with the absent-collection failure, the stored collection is exactly as
before the call (in this model every failure, the propagated token
failure included, leaves the store untouched, since both writes happen
after the last failure point). -/
theorem claim_C10 (henv : HydrateEnv) (tenv : TokenEnv) (store : Option SetDoc)
    (userId : String) (ids : List String) :
    ((addSongs henv tenv store userId ids).1 = Except.error SetErr.forbidden
        ∨ (addSongs henv tenv store userId ids).1 = Except.error SetErr.setNotFound →
      (addSongs henv tenv store userId ids).2 = store)
    ∧ ((replaceSongs henv tenv store userId ids).1 = Except.error SetErr.forbidden
        ∨ (replaceSongs henv tenv store userId ids).1 = Except.error SetErr.setNotFound →
      (replaceSongs henv tenv store userId ids).2 = store) := by
  constructor
  · rintro (h | h)
    · exact addSongs_error_snd henv tenv store userId ids _ h
    · exact addSongs_error_snd henv tenv store userId ids _ h
  · rintro (h | h)
    · exact replaceSongs_error_snd henv tenv store userId ids _ h
    · exact replaceSongs_error_snd henv tenv store userId ids _ h

/-- Witness for claim C10 at a concrete input: the absent-collection
scenario fails with Forbidden and the store afterwards is still the
absent store. -/
theorem claim_C10_witness :
    (addSongs henvTriv tenvTriv none "u" ["x"]).2 = none
    ∧ (replaceSongs henvTriv tenvTriv none "u" ["x"]).2 = none :=
  ⟨(claim_C10 henvTriv tenvTriv none "u" ["x"]).1 (Or.inl rfl),
   (claim_C10 henvTriv tenvTriv none "u" ["x"]).2 (Or.inl rfl)⟩

/-! Characterization of the reconciler helpers. -/

theorem bool_of_iff {a b : Bool} (h : a = true ↔ b = true) : a = b := by
  cases a <;> cases b <;> simp_all

theorem orElse_isSome {α : Type} (a b : Option α) :
    (a.orElse (fun _ => b)).isSome = (a.isSome || b.isSome) := by
  cases a <;> cases b <;> rfl

theorem contains_false_iff (l : List String) (a : String) : l.contains a = false ↔ a ∉ l := by
  rw [← Bool.not_eq_true, not_iff_not]
  exact contains_iff l a

theorem collectToHydrate_eq (cur : List String) (l : List String) :
    ∀ seen : List String,
      collectToHydrate cur l seen
        = (dedupKeep (l.map normalize) seen).filter (fun id => !cur.contains id) := by
  induction l with
  | nil => intro seen; rfl
  | cons id rest ih =>
    intro seen
    simp only [collectToHydrate, List.map_cons, dedupKeep]
    cases hseen : seen.contains (normalize id) with
    | true => simpa using ih seen
    | false =>
      simp only [Bool.false_eq_true, if_false]
      cases hcur : cur.contains (normalize id) with
      | true =>
        rw [List.filter_cons_of_neg (by simp only [hcur]; decide)]
        simpa [hcur] using ih (normalize id :: seen)
      | false =>
        rw [List.filter_cons_of_pos (by rw [hcur]; rfl)]
        simpa [hcur] using ih (normalize id :: seen)

theorem buildNextAux_snd (m hm : SongMap) (l : List String) :
    ∀ seen : List String,
      (buildNextAux m hm l seen).2
        = dedupKeep ((l.map normalize).filter
            (fun id => ((aGet m id).orElse (fun _ => aGet hm id)).isSome)) seen := by
  induction l with
  | nil => intro seen; rfl
  | cons rawId rest ih =>
    intro seen
    simp only [buildNextAux, List.map_cons, List.filter_cons]
    by_cases hseen : seen.contains (normalize rawId)
    · rw [if_pos hseen]
      cases hres : ((aGet m (normalize rawId)).orElse (fun _ => aGet hm (normalize rawId))) with
      | none =>
        rw [ih seen]
        simp only [hres, Option.isSome_none]
        rfl
      | some song =>
        rw [ih seen]
        simp only [hres, Option.isSome_some, if_pos rfl, dedupKeep, if_pos hseen]
    · rw [if_neg hseen]
      cases hres : ((aGet m (normalize rawId)).orElse (fun _ => aGet hm (normalize rawId))) with
      | none =>
        rw [ih seen]
        simp only [hres, Option.isSome_none]
        rfl
      | some song =>
        simp only [hres, Option.isSome_some, if_pos rfl, dedupKeep, if_neg hseen]
        congr 1
        exact ih (normalize rawId :: seen)

theorem buildNextAux_fst_ids (m hm : SongMap)
    (hmc : aConsistent (fun s => s.id) m) (hhc : aConsistent (fun s => s.id) hm)
    (l : List String) :
    ∀ seen : List String,
      ((buildNextAux m hm l seen).1).map (fun s => s.id) = (buildNextAux m hm l seen).2 := by
  induction l with
  | nil => intro seen; rfl
  | cons rawId rest ih =>
    intro seen
    simp only [buildNextAux]
    by_cases hseen : seen.contains (normalize rawId)
    · rw [if_pos hseen]
      exact ih seen
    · rw [if_neg hseen]
      cases hres : ((aGet m (normalize rawId)).orElse (fun _ => aGet hm (normalize rawId))) with
      | none => exact ih seen
      | some song =>
        have hid : song.id = normalize rawId := by
          cases hm₁ : aGet m (normalize rawId) with
          | some s =>
            rw [hm₁] at hres
            have h₂ : some s = some song := hres
            injection h₂ with h₃
            exact h₃ ▸ aConsistent_get hmc hm₁
          | none =>
            rw [hm₁] at hres
            have h₂ : aGet hm (normalize rawId) = some song := hres
            exact aConsistent_get hhc h₂
        simp only [List.map_cons, hid]
        rw [ih (normalize rawId :: seen)]

theorem aConsistent_songMap (current : List SetSong) :
    aConsistent (fun s => s.id) (songMap current) :=
  aConsistent_foldlSet _ _ (aConsistent_nil _)

theorem aGet_songMap_isSome (current : List SetSong) (k : String) :
    (aGet (songMap current) k).isSome = (current.map (fun s => s.id)).contains k := by
  refine bool_of_iff ?_
  rw [contains_iff]
  unfold songMap
  rw [aGet_foldlSet_isSome]
  simp [aGet]

theorem songMap_foldl_get_self (current : List SetSong)
    (hnd : (current.map (fun s => s.id)).Nodup) :
    ∀ (m₀ : AList SetSong) (s : SetSong), s ∈ current →
      aGet (current.foldl (fun m t => aSet m t.id t) m₀) s.id = some s := by
  induction current with
  | nil => intro m₀ s hs; cases hs
  | cons t rest ih =>
    intro m₀ s hs
    simp only [List.map_cons, List.nodup_cons] at hnd
    simp only [List.foldl_cons]
    rcases List.mem_cons.mp hs with h | h
    · subst h
      rw [aGet_foldlSet_of_notMem (fun u => u.id) rest (aSet m₀ s.id s) s.id ?_]
      · rw [aGet_aSet, if_pos rfl]
      · intro x hx hxid
        exact hnd.1 (hxid ▸ List.mem_map_of_mem (fun u => u.id) hx)
    · exact ih hnd.2 (aSet m₀ t.id t) s h

theorem songMap_get_self (current : List SetSong)
    (hnd : (current.map (fun s => s.id)).Nodup) (s : SetSong) (hs : s ∈ current) :
    aGet (songMap current) s.id = some s :=
  songMap_foldl_get_self current hnd [] s hs

theorem aConsistent_buildHydratedMap_aux (hyd : List TrackCacheDoc) :
    ∀ m₀ : SongMap, aConsistent (fun s => s.id) m₀ →
      aConsistent (fun s => s.id)
        (hyd.foldl (fun m h => if h.trackId = "" then m
          else aSet m h.trackId (docToSong h)) m₀) := by
  induction hyd with
  | nil => intro m₀ hm; exact hm
  | cons h rest ih =>
    intro m₀ hm
    simp only [List.foldl_cons]
    by_cases hid : h.trackId = ""
    · rw [if_pos hid]
      exact ih m₀ hm
    · rw [if_neg hid]
      exact ih _ (aConsistent_aSet hm rfl)

theorem aConsistent_buildHydratedMap (hyd : List TrackCacheDoc) :
    aConsistent (fun s => s.id) (buildHydratedMap hyd) :=
  aConsistent_buildHydratedMap_aux hyd [] (aConsistent_nil _)

theorem aGet_buildHydratedMap_aux (hyd : List TrackCacheDoc) (k : String) :
    ∀ m₀ : SongMap,
      (aGet (hyd.foldl (fun m h => if h.trackId = "" then m
          else aSet m h.trackId (docToSong h)) m₀) k).isSome
        ↔ (aGet m₀ k).isSome ∨ (k ≠ "" ∧ k ∈ hyd.map (fun h => h.trackId)) := by
  induction hyd with
  | nil => intro m₀; simp
  | cons h rest ih =>
    intro m₀
    simp only [List.foldl_cons, List.map_cons, List.mem_cons]
    by_cases hid : h.trackId = ""
    · rw [if_pos hid, ih]
      constructor
      · rintro (h₁ | ⟨h₁, h₂⟩)
        · exact Or.inl h₁
        · exact Or.inr ⟨h₁, Or.inr h₂⟩
      · rintro (h₁ | ⟨h₁, h₂ | h₂⟩)
        · exact Or.inl h₁
        · exact absurd (h₂ ▸ hid) h₁
        · exact Or.inr ⟨h₁, h₂⟩
    · rw [if_neg hid, ih]
      constructor
      · rintro (h₁ | ⟨h₁, h₂⟩)
        · rw [aGet_aSet] at h₁
          by_cases hk : h.trackId = k
          · exact Or.inr ⟨hk ▸ hid, Or.inl hk.symm⟩
          · rw [if_neg hk] at h₁
            exact Or.inl h₁
        · exact Or.inr ⟨h₁, Or.inr h₂⟩
      · rintro (h₁ | ⟨h₁, h₂ | h₂⟩)
        · left
          rw [aGet_aSet]
          by_cases hk : h.trackId = k
          · simp [hk]
          · rwa [if_neg hk]
        · left
          rw [aGet_aSet, if_pos h₂.symm]
          rfl
        · exact Or.inr ⟨h₁, h₂⟩

theorem aGet_buildHydratedMap_isSome (hyd : List TrackCacheDoc) (k : String) :
    (aGet (buildHydratedMap hyd) k).isSome
      ↔ k ≠ "" ∧ k ∈ hyd.map (fun h => h.trackId) := by
  unfold buildHydratedMap
  rw [aGet_buildHydratedMap_aux]
  simp [aGet]

/-! Success paths of the two reconciler operations. -/

/-- New ids of a replaceSongs call: normalized finalOrder ids, first
occurrence only, not present in the current list. -/
def newIds (set : SetDoc) (fo : List String) : List String :=
  (dedupFirst (fo.map normalize)).filter
    (fun id => !(set.songs.map (fun s => s.id)).contains id)

theorem collectToHydrate_eq_newIds (set : SetDoc) (fo : List String) :
    collectToHydrate (set.songs.map (fun s => s.id)) fo [] = newIds set fo := by
  rw [collectToHydrate_eq]
  rfl

theorem replaceSongs_eq_finish (henv : HydrateEnv) (tenv : TokenEnv) (set : SetDoc)
    (userId : String) (fo : List String) (atok : Option String)
    (hEd : isEditor (some set) userId = true)
    (htok : (ensureAccessToken tenv).1 = Except.ok atok) :
    replaceSongs henv tenv (some set) userId fo
      = replaceFinish set
          (buildHydratedMap (getManyWithHydrate henv atok (newIds set fo))) fo := by
  unfold replaceSongs
  rw [if_neg (by simp [hEd])]
  show (if (collectToHydrate (set.songs.map (fun s => s.id)) fo []).isEmpty then
      replaceFinish set [] fo
    else
      match (ensureAccessToken tenv).1 with
      | Except.error e => (Except.error (SetErr.token e), some set)
      | Except.ok accessToken =>
        replaceFinish set
          (buildHydratedMap (getManyWithHydrate henv accessToken
            (collectToHydrate (set.songs.map (fun s => s.id)) fo []))) fo) = _
  rw [collectToHydrate_eq_newIds]
  by_cases hc : (newIds set fo).isEmpty
  · rw [if_pos hc]
    have hnil : newIds set fo = [] := List.isEmpty_iff.mp hc
    rw [hnil]
    rfl
  · rw [if_neg hc, htok]

theorem addSongs_eq_apply (henv : HydrateEnv) (tenv : TokenEnv) (set : SetDoc)
    (userId : String) (ids : List String) (atok : Option String)
    (hEd : isEditor (some set) userId = true)
    (htok : (ensureAccessToken tenv).1 = Except.ok atok) :
    addSongs henv tenv (some set) userId ids
      = if (incomingIds set ids).isEmpty then
          (Except.ok { songs := set.songs, added := 0, addedTracks := [], skipped := [] },
           some set)
        else addSongsApply henv set atok (incomingIds set ids) := by
  unfold addSongs
  rw [if_neg (by simp [hEd])]
  show (if (incomingIds set ids).isEmpty then
      (Except.ok { songs := set.songs, added := 0, addedTracks := [], skipped := [] },
       some set)
    else
      match (ensureAccessToken tenv).1 with
      | Except.error e => (Except.error (SetErr.token e), some set)
      | Except.ok accessToken => addSongsApply henv set accessToken (incomingIds set ids)) = _
  by_cases hc : (incomingIds set ids).isEmpty
  · rw [if_pos hc, if_pos hc]
  · rw [if_neg hc, if_neg hc, htok]

theorem replaceFinish_spec (set : SetDoc) (hm : SongMap) (fo : List String)
    (hhc : aConsistent (fun s => s.id) hm) :
    ∃ (r : ReplaceResult) (set₁ : SetDoc),
      replaceFinish set hm fo = (Except.ok r, some set₁)
      ∧ set₁.songs = r.songs
      ∧ set₁.images = imagesFromSongs r.songs
      ∧ set₁.createdBy = set.createdBy ∧ set₁.collaborators = set.collaborators
      ∧ set₁.tags = set.tags ∧ set₁.name = set.name
      ∧ r.songs.map (fun s => s.id)
          = (dedupFirst (fo.map normalize)).filter
              (fun id => (set.songs.map (fun s => s.id)).contains id
                || (aGet hm id).isSome)
      ∧ r.orderChanged
          = decide (set.songs.map (fun s => s.id) ≠ r.songs.map (fun s => s.id))
      ∧ r.removed
          = set.songs.filter (fun s => !(r.songs.map (fun u => u.id)).contains s.id)
      ∧ r.removedCount = r.removed.length
      ∧ r.length = r.songs.length := by
  have hsync : ((buildNextAux (songMap set.songs) hm fo []).1).map (fun s => s.id)
      = (buildNextAux (songMap set.songs) hm fo []).2 :=
    buildNextAux_fst_ids (songMap set.songs) hm (aConsistent_songMap set.songs) hhc fo []
  have hids : ((buildNextAux (songMap set.songs) hm fo []).1).map (fun s => s.id)
      = (dedupFirst (fo.map normalize)).filter
          (fun id => (set.songs.map (fun s => s.id)).contains id || (aGet hm id).isSome) := by
    rw [hsync, buildNextAux_snd]
    rw [dedupKeep_filter _ _ [] [] (fun x _ => Iff.rfl)]
    unfold dedupFirst
    refine List.filter_congr ?_
    intro id _
    rw [orElse_isSome, aGet_songMap_isSome]
  refine ⟨_, _, rfl, rfl, rfl, rfl, rfl, rfl, rfl, hids, ?_, ?_, rfl, rfl⟩
  · show decide (set.songs.map (fun s => s.id) ≠ (buildNextAux (songMap set.songs) hm fo []).2)
        = decide (set.songs.map (fun s => s.id)
            ≠ ((buildNextAux (songMap set.songs) hm fo []).1).map (fun s => s.id))
    rw [hsync]
  · show set.songs.filter
        (fun s => !((buildNextAux (songMap set.songs) hm fo []).2).contains s.id)
      = set.songs.filter
        (fun s => !(((buildNextAux (songMap set.songs) hm fo []).1).map
            (fun u => u.id)).contains s.id)
    rw [hsync]

theorem replaceSongs_cases (henv : HydrateEnv) (tenv : TokenEnv) (set : SetDoc)
    (userId : String) (fo : List String) :
    (∃ e, replaceSongs henv tenv (some set) userId fo = (Except.error e, some set))
    ∨ ∃ hm, aConsistent (fun s => s.id) hm
        ∧ replaceSongs henv tenv (some set) userId fo = replaceFinish set hm fo := by
  unfold replaceSongs
  split
  · exact Or.inl ⟨_, rfl⟩
  · split
    · next heq => cases heq
    · next set₁ heq =>
      obtain rfl : set = set₁ := by injection heq
      split
      · exact Or.inr ⟨[], aConsistent_nil _, rfl⟩
      · split
        · exact Or.inl ⟨_, rfl⟩
        · exact Or.inr ⟨_, aConsistent_buildHydratedMap _, rfl⟩

theorem addSongs_cases (henv : HydrateEnv) (tenv : TokenEnv) (set : SetDoc)
    (userId : String) (ids : List String) :
    (∃ e, addSongs henv tenv (some set) userId ids = (Except.error e, some set))
    ∨ addSongs henv tenv (some set) userId ids
        = (Except.ok { songs := set.songs, added := 0, addedTracks := [], skipped := [] },
           some set)
    ∨ ∃ atok, addSongs henv tenv (some set) userId ids
        = addSongsApply henv set atok (incomingIds set ids) := by
  unfold addSongs
  split
  · exact Or.inl ⟨_, rfl⟩
  · split
    · next heq => cases heq
    · next set₁ heq =>
      obtain rfl : set = set₁ := by injection heq
      split
      · exact Or.inr (Or.inl rfl)
      · split
        · exact Or.inl ⟨_, rfl⟩
        · exact Or.inr (Or.inr ⟨_, rfl⟩)

theorem addSongsApply_spec (henv : HydrateEnv) (set : SetDoc) (atok : Option String)
    (inc : List String) :
    addSongsApply henv set atok inc
      = (Except.ok
          { songs := set.songs ++ hydratedSongs henv atok inc
          , added := (hydratedSongs henv atok inc).length
          , addedTracks := getManyWithHydrate henv atok inc
          , skipped := inc.filter (fun id =>
              !((getManyWithHydrate henv atok inc).map (fun t => t.trackId)).contains id) },
         some { set with
           songs := set.songs ++ hydratedSongs henv atok inc
         , images :=
             if (imagesFromSongs (set.songs ++ hydratedSongs henv atok inc)).isEmpty
             then set.images
             else imagesFromSongs (set.songs ++ hydratedSongs henv atok inc) }) := by
  unfold addSongsApply
  by_cases himg : (imagesFromSongs (set.songs ++ hydratedSongs henv atok inc)).isEmpty
  · simp only [if_pos himg]
  · simp only [if_neg himg]

/-- Claim C1: with an editing actor, a resolvable access token and any
finalOrder, replaceSongs hydrates exactly the new ids (normalized, first
occurrence, absent from the current list), succeeds, and persists the
final list whose id sequence is the caller-supplied first-occurrence
order restricted to ids resolvable from the current list or from the
hydration result; every successfully hydrated new id appears at its
caller-supplied position and every new id that failed to hydrate is
silently dropped without failing the call. -/
theorem claim_C1 (henv : HydrateEnv) (tenv : TokenEnv) (set : SetDoc) (userId : String)
    (fo : List String) (atok : Option String)
    (hEd : isEditor (some set) userId = true)
    (htok : (ensureAccessToken tenv).1 = Except.ok atok) :
    ∃ (r : ReplaceResult) (set₁ : SetDoc),
      replaceSongs henv tenv (some set) userId fo = (Except.ok r, some set₁)
      ∧ set₁.songs = r.songs
      ∧ r.songs.map (fun s => s.id)
          = (dedupFirst (fo.map normalize)).filter
              (fun id => (set.songs.map (fun s => s.id)).contains id
                || (aGet (buildHydratedMap
                      (getManyWithHydrate henv atok (newIds set fo))) id).isSome)
      ∧ (∀ id ∈ newIds set fo,
          (aGet (buildHydratedMap
              (getManyWithHydrate henv atok (newIds set fo))) id).isSome = true
            → id ∈ r.songs.map (fun s => s.id))
      ∧ (∀ id ∈ newIds set fo,
          (aGet (buildHydratedMap
              (getManyWithHydrate henv atok (newIds set fo))) id).isSome = false
            → id ∉ r.songs.map (fun s => s.id)) := by
  obtain ⟨r, set₁, heq, hsongs, _, _, _, _, _, hids, _, _, _, _⟩ :=
    replaceFinish_spec set
      (buildHydratedMap (getManyWithHydrate henv atok (newIds set fo))) fo
      (aConsistent_buildHydratedMap _)
  refine ⟨r, set₁, ?_, hsongs, hids, ?_, ?_⟩
  · rw [replaceSongs_eq_finish henv tenv set userId fo atok hEd htok]
    exact heq
  · intro id hmem hsome
    have h₃ := List.mem_filter.mp hmem
    rw [hids, List.mem_filter]
    exact ⟨h₃.1, by rw [hsome, Bool.or_true]⟩
  · intro id hmem hnone hc
    have h₃ := List.mem_filter.mp hmem
    rw [hids, List.mem_filter] at hc
    have h₄ := hc.2
    rw [hnone, Bool.or_false] at h₄
    rw [h₄] at h₃
    simp at h₃

/-- Song list held by the (possibly absent) stored collection. -/
def storeSongs : Option SetDoc → List SetSong
  | none => []
  | some d => d.songs

theorem hydratedSongs_ids (henv : HydrateEnv) (atok : Option String) (inc : List String) :
    (hydratedSongs henv atok inc).map (fun s => s.id)
      = ((getManyWithHydrate henv atok inc).map (fun h => h.trackId)).filter
          (fun k => !(k = "" : Bool)) := by
  show ((getManyWithHydrate henv atok inc).filterMap
      (fun h => if h.trackId = "" then none else some (docToSong h))).map (fun s => s.id)
    = _
  induction getManyWithHydrate henv atok inc with
  | nil => rfl
  | cons h rest ih =>
    by_cases hid : h.trackId = ""
    · simp [List.filterMap_cons, hid, ih]
    · rw [List.filterMap_cons]
      simp only [if_neg hid]
      rw [List.map_cons, List.map_cons, List.filter_cons_of_pos (by simp [hid])]
      rw [ih]
      rfl

/-- Claim C5: starting from a collection whose song list has no duplicate
trackId, the song list stored after any addSongs call and after any
replaceSongs call again has no duplicate trackId. -/
theorem claim_C5 (henv : HydrateEnv) (tenv : TokenEnv) (set : SetDoc) (userId : String)
    (ids : List String) (fo : List String)
    (hnd : (set.songs.map (fun s => s.id)).Nodup) :
    ((storeSongs (addSongs henv tenv (some set) userId ids).2).map (fun s => s.id)).Nodup
    ∧ ((storeSongs (replaceSongs henv tenv (some set) userId fo).2).map
        (fun s => s.id)).Nodup := by
  constructor
  · rcases addSongs_cases henv tenv set userId ids with ⟨e, heq⟩ | heq | ⟨atok, heq⟩
    · rw [heq]; exact hnd
    · rw [heq]; exact hnd
    · rw [heq, addSongsApply_spec]
      show ((set.songs ++ hydratedSongs henv atok (incomingIds set ids)).map
        (fun s => s.id)).Nodup
      rw [List.map_append]
      refine List.Nodup.append hnd ?_ ?_
      · rw [hydratedSongs_ids, getManyWithHydrate_trackIds]
        exact ((nodup_dedupFirst ids).filter _).filter _ |>.filter _
      · intro a ha hb
        rw [hydratedSongs_ids, getManyWithHydrate_trackIds] at hb
        have hb₁ := (List.mem_filter.mp hb).1
        have hb₂ := (List.mem_filter.mp hb₁).1
        have hb₃ := (List.mem_filter.mp hb₂).2
        rw [(contains_iff _ _).mpr ha] at hb₃
        simp at hb₃
  · rcases replaceSongs_cases henv tenv set userId fo with ⟨e, heq⟩ | ⟨hm, hc, heq⟩
    · rw [heq]; exact hnd
    · obtain ⟨r, set₁, heq₂, hsongs, _, _, _, _, _, hids, _, _, _, _⟩ :=
        replaceFinish_spec set hm fo hc
      rw [heq, heq₂]
      show (set₁.songs.map (fun s => s.id)).Nodup
      rw [hsongs, hids]
      exact (nodup_dedupFirst _).filter _

/-- Claim C6 (amended): after every successful replaceSongs the stored
derived images equal the first up-to-5 non-empty artwork URLs of the new
list, the empty case included; after a successful addSongs they equal
that derivation only when it is non-empty — a new list yielding zero
artwork URLs (or the incoming-empty early return) leaves the previously
stored images untouched. -/
theorem claim_C6_amended (henv : HydrateEnv) (tenv : TokenEnv) (set : SetDoc)
    (userId : String) (ids : List String) (fo : List String) :
    (∀ (r : ReplaceResult) (set₁ : SetDoc),
      replaceSongs henv tenv (some set) userId fo = (Except.ok r, some set₁) →
      set₁.images = imagesFromSongs set₁.songs)
    ∧ (∀ (r : AddResult) (set₁ : SetDoc),
      addSongs henv tenv (some set) userId ids = (Except.ok r, some set₁) →
      set₁.songs = r.songs
      ∧ ((r.added = 0 ∧ set₁ = set)
          ∨ set₁.images = (if (imagesFromSongs r.songs).isEmpty then set.images
              else imagesFromSongs r.songs))) := by
  constructor
  · intro r set₁ heq
    rcases replaceSongs_cases henv tenv set userId fo with ⟨e, hcase⟩ | ⟨hm, hc, hcase⟩
    · rw [hcase] at heq
      simp at heq
    · rw [hcase] at heq
      obtain ⟨r₀, s₀, heq₂, hsongs, himg, _, _, _, _, _, _, _, _, _⟩ :=
        replaceFinish_spec set hm fo hc
      rw [heq₂] at heq
      injection heq with ha hb
      injection ha with ha
      injection hb with hb
      subst ha
      subst hb
      rw [himg, hsongs]
  · intro r set₁ heq
    rcases addSongs_cases henv tenv set userId ids with ⟨e, hcase⟩ | hcase | ⟨atok, hcase⟩
    · rw [hcase] at heq
      simp at heq
    · rw [hcase] at heq
      injection heq with ha hb
      injection ha with ha
      injection hb with hb
      subst ha
      subst hb
      exact ⟨rfl, Or.inl ⟨rfl, rfl⟩⟩
    · rw [hcase, addSongsApply_spec] at heq
      injection heq with ha hb
      injection ha with ha
      injection hb with hb
      subst ha
      subst hb
      exact ⟨rfl, Or.inr rfl⟩

theorem buildNextAux_id_list (m : SongMap) (cur₂ : List SetSong) :
    ∀ seen : List String,
      (∀ s ∈ cur₂, normalize s.id = s.id) →
      ((cur₂.map (fun s => s.id)).Nodup) →
      (∀ s ∈ cur₂, s.id ∉ seen) →
      (∀ s ∈ cur₂, aGet m s.id = some s) →
      buildNextAux m [] (cur₂.map (fun s => s.id)) seen
        = (cur₂, cur₂.map (fun s => s.id)) := by
  induction cur₂ with
  | nil => intro seen _ _ _ _; rfl
  | cons s rest ih =>
    intro seen hnorm hnd hseen hget
    simp only [List.map_cons, buildNextAux]
    rw [hnorm s (List.mem_cons_self _ _)]
    rw [if_neg (fun hc => hseen s (List.mem_cons_self _ _) ((contains_iff _ _).mp hc))]
    rw [hget s (List.mem_cons_self _ _)]
    show (s :: (buildNextAux m [] (rest.map (fun u => u.id)) (s.id :: seen)).1,
          s.id :: (buildNextAux m [] (rest.map (fun u => u.id)) (s.id :: seen)).2)
        = (s :: rest, s.id :: rest.map (fun u => u.id))
    have hnd₂ : s.id ∉ rest.map (fun u => u.id) ∧ (rest.map (fun u => u.id)).Nodup := by
      rw [List.map_cons] at hnd
      exact List.nodup_cons.mp hnd
    rw [ih (s.id :: seen)
      (fun u hu => hnorm u (List.mem_cons_of_mem _ hu))
      hnd₂.2
      (fun u hu => by
        simp only [List.mem_cons, not_or]
        exact ⟨fun he => hnd₂.1 (he ▸ List.mem_map_of_mem (fun v => v.id) hu),
          hseen u (List.mem_cons_of_mem _ hu)⟩)
      (fun u hu => hget u (List.mem_cons_of_mem _ hu))]

theorem bnot_contains_true_iff (l : List String) (a : String) :
    (!l.contains a) = true ↔ a ∉ l := by
  cases hc : l.contains a with
  | true => simp [(contains_iff l a).mp hc]
  | false => simp [(contains_false_iff l a).mp hc]

set_option maxHeartbeats 1600000 in
/-- Claim C9: replaceSongs reports orderChanged exactly when the id
sequence of the final list differs from the prior one, and calling it
with the current ids in the current order (over a collection satisfying
the data-model invariant: no duplicate trackId, ids being bare catalog
ids fixed by normalization) is a no-op on the song list with
orderChanged false and removedCount 0 (the derived images are still
rewritten, to the value derived from the unchanged list). -/
theorem claim_C9 :
    (∀ (henv : HydrateEnv) (tenv : TokenEnv) (set : SetDoc) (userId : String)
        (fo : List String) (r : ReplaceResult) (st₁ : Option SetDoc),
      replaceSongs henv tenv (some set) userId fo = (Except.ok r, st₁) →
      (r.orderChanged = true
        ↔ r.songs.map (fun s => s.id) ≠ set.songs.map (fun s => s.id)))
    ∧ (∀ (henv : HydrateEnv) (tenv : TokenEnv) (set : SetDoc) (userId : String),
      isEditor (some set) userId = true →
      (set.songs.map (fun s => s.id)).Nodup →
      (∀ s ∈ set.songs, normalize s.id = s.id) →
      replaceSongs henv tenv (some set) userId (set.songs.map (fun s => s.id))
        = (Except.ok { songs := set.songs, removedCount := 0, removed := []
                     , orderChanged := false, length := set.songs.length },
           some { set with images := imagesFromSongs set.songs })) := by
  constructor
  · intro henv tenv set userId fo r st₁ heq
    rcases replaceSongs_cases henv tenv set userId fo with ⟨e, hcase⟩ | ⟨hm, hc, hcase⟩
    · rw [hcase] at heq
      simp at heq
    · rw [hcase] at heq
      obtain ⟨r₀, s₀, heq₂, _, _, _, _, _, _, _, horder, _, _, _⟩ :=
        replaceFinish_spec set hm fo hc
      rw [heq₂] at heq
      injection heq with ha hb
      injection ha with ha
      subst ha
      simp only [horder, decide_eq_true_eq]
      exact ne_comm
  · intro henv tenv set userId hEd hnd hnorm
    have hmapnorm : ∀ l : List SetSong, (∀ s ∈ l, normalize s.id = s.id) →
        (l.map (fun s => s.id)).map normalize = l.map (fun s => s.id) := by
      intro l hl
      induction l with
      | nil => rfl
      | cons s rest ih =>
        simp only [List.map_cons, hl s (List.mem_cons_self _ _)]
        rw [ih (fun u hu => hl u (List.mem_cons_of_mem _ hu))]
    have hded : dedupFirst (set.songs.map (fun s => s.id)) = set.songs.map (fun s => s.id) :=
      dedupKeep_eq_self _ hnd [] (by simp)
    have hnew : newIds set (set.songs.map (fun s => s.id)) = [] := by
      unfold newIds
      rw [hmapnorm set.songs hnorm, hded]
      refine List.filter_eq_nil_iff.mpr ?_
      intro a ha
      rw [bnot_contains_true_iff]
      exact fun h => h ha
    unfold replaceSongs
    rw [if_neg (by simp [hEd])]
    show (if (collectToHydrate (set.songs.map (fun s => s.id))
          (set.songs.map (fun s => s.id)) []).isEmpty then
        replaceFinish set [] (set.songs.map (fun s => s.id))
      else _) = _
    rw [collectToHydrate_eq_newIds, hnew]
    rw [if_pos List.isEmpty_nil]
    unfold replaceFinish
    rw [buildNextAux_id_list (songMap set.songs) set.songs [] hnorm hnd (by simp)
      (fun s hs => songMap_get_self set.songs hnd s hs)]
    have hrem : set.songs.filter
        (fun s => !((set.songs, set.songs.map (fun u => u.id)).2).contains s.id) = [] := by
      refine List.filter_eq_nil_iff.mpr ?_
      intro s hs
      rw [bnot_contains_true_iff]
      simp only [not_not]
      exact List.mem_map_of_mem _ hs
    rw [hrem]
    simp

/-! Per-group failure isolation of the hydration loop. -/

theorem flatten_nodup_unique (L : List (List String)) (hnd : L.flatten.Nodup) :
    ∀ c₁ ∈ L, ∀ c₂ ∈ L, ∀ x : String, x ∈ c₁ → x ∈ c₂ → c₁ = c₂ := by
  induction L with
  | nil => intro c₁ h; cases h
  | cons h rest ih =>
    rw [List.flatten_cons] at hnd
    have hsplit := List.nodup_append.mp hnd
    intro c₁ hc₁ c₂ hc₂ x hx₁ hx₂
    rcases List.mem_cons.mp hc₁ with h₁ | h₁
    · rcases List.mem_cons.mp hc₂ with h₂ | h₂
      · exact h₁.trans h₂.symm
      · subst h₁
        exact absurd (show x ∈ rest.flatten from List.mem_flatten.mpr ⟨c₂, h₂, hx₂⟩)
          (hsplit.2.2 hx₁)
    · rcases List.mem_cons.mp hc₂ with h₂ | h₂
      · subst h₂
        exact absurd (show x ∈ rest.flatten from List.mem_flatten.mpr ⟨c₁, h₁, hx₁⟩)
          (hsplit.2.2 hx₂)
      · exact ih hsplit.2.1 c₁ h₁ c₂ h₂ x hx₁ hx₂

/-- Claim C7: when the stale-or-absent ids span several batch groups and
exactly one group's upstream call fails while every other group succeeds
and returns documents for precisely its ids, hydrate still returns a
value (no exception is modelled: the catch branch continues the loop)
whose records are the cache-fresh ids and the ids of every successful
group, in input order; exactly the ids of the failed group are omitted. -/
theorem claim_C7 (env : HydrateEnv) (tok : Option String) (ids : List String)
    (bad : List String)
    (_hspan : 2 ≤ (chunks50 (missingIds env ids)).length)
    (hbad : bad ∈ chunks50 (missingIds env ids))
    (hfail : env.upstream bad = none)
    (hgood : ∀ c ∈ chunks50 (missingIds env ids), c ≠ bad →
        (env.upstream c).map docIds = some c) :
    (getManyWithHydrate env tok ids).map (fun d => d.trackId)
      = ids.filter (fun id => !bad.contains id) := by
  rw [getManyWithHydrate_trackIds]
  refine List.filter_congr ?_
  intro id hid
  refine bool_of_iff ?_
  rw [finalFresh_isSome, bnot_contains_true_iff]
  have hflat : (chunks50 (missingIds env ids)).flatten = missingIds env ids :=
    chunks50_flatten _
  have hfnd : (chunks50 (missingIds env ids)).flatten.Nodup := by
    rw [hflat]
    exact nodup_missingIds env ids
  constructor
  · rintro (hfresh | ⟨c, hc, raw, hraw, hdoc⟩)
    · intro hmem
      have hmiss : id ∈ missingIds env ids := by
        rw [← hflat]
        exact List.mem_flatten.mpr ⟨bad, hbad, hmem⟩
      have h₂ := (mem_missingIds env ids id).mp hmiss
      rw [h₂.2] at hfresh
      simp at hfresh
    · have hcbad : c ≠ bad := by
        rintro rfl
        rw [hfail] at hraw
        cases hraw
      have hdoceq : docIds raw = c := by
        have hmap := hgood c hc hcbad
        rw [hraw] at hmap
        have h₂ : some (docIds raw) = some c := hmap
        injection h₂
      intro hmem
      exact hcbad (flatten_nodup_unique _ hfnd c hc bad hbad id (hdoceq ▸ hdoc) hmem)
  · intro hnotbad
    by_cases hfresh : (aGet (initialFresh env ids) id).isSome
    · exact Or.inl hfresh
    · have hidded : id ∈ dedupFirst ids := (mem_dedupFirst ids id).mpr hid
      have hmiss : id ∈ missingIds env ids :=
        (mem_missingIds env ids id).mpr
          ⟨hidded, Option.not_isSome_iff_eq_none.mp hfresh⟩
      have hmiss₂ : id ∈ (chunks50 (missingIds env ids)).flatten := by
        rw [hflat]
        exact hmiss
      obtain ⟨c, hc, hcmem⟩ := List.mem_flatten.mp hmiss₂
      have hcbad : c ≠ bad := by
        rintro rfl
        exact hnotbad hcmem
      have hmap := hgood c hc hcbad
      cases hup : env.upstream c with
      | none =>
        rw [hup] at hmap
        cases hmap
      | some raw =>
        rw [hup] at hmap
        have h₂ : some (docIds raw) = some c := hmap
        injection h₂ with h₂
        exact Or.inr ⟨c, hc, raw, hup, h₂ ▸ hcmem⟩

/-! Concrete reconciler scenarios for witnesses and counterexamples. -/

/-- Existing song with artwork. -/
def songV : SetSong := { id := "x", title := "tx", artists := [], image := some "ux" }

/-- Collection owned by alice holding songV. -/
def setV : SetDoc :=
  { name := "n", createdBy := "alice", collaborators := [], songs := [songV]
  , images := ["ux"], tags := [] }

/-- Upstream track for the id "q". -/
def trackQ : SpotifyTrack := { id := "q", name := "Q", artists := [], albumImage := none }

/-- Hydration environment resolving the chunk ["q", "bad"] with "bad"
unknown upstream (null entry). -/
def henvV : HydrateEnv :=
  { store := [], now := 0
  , upstream := fun c => if c = ["q", "bad"] then some [some trackQ, none] else none }

/-- Token environment with a fresh stored credential. -/
def tenvOkV : TokenEnv :=
  { stored := some { access_token := some "tok", refresh_token := "r", token_type := none
                   , scope := none, expires_at := 1000000000 }
  , now := 0, refreshResponse := none }

/-- Witness for claim C1: replacing with ["q", "x", "bad"] over a
collection holding only "x" hydrates the new ids "q" and "bad", keeps the
resolved "q" at its caller-supplied position, keeps "x", and silently
drops the unresolvable "bad". -/
theorem claim_C1_witness :
    ((storeSongs (replaceSongs henvV tenvOkV (some setV) "alice" ["q", "x", "bad"]).2).map
      (fun s => s.id)) = ["q", "x"] := by
  obtain ⟨r, set₁, heq, hsongs, hids, _, _⟩ :=
    claim_C1 henvV tenvOkV setV "alice" ["q", "x", "bad"] (some "tok") (by decide) rfl
  rw [heq]
  show set₁.songs.map (fun s => s.id) = ["q", "x"]
  rw [hsongs, hids]
  decide

/-- Witness for claim C5 at a concrete input: duplicate candidate ids and
a duplicate-mentioning finalOrder still leave stored song lists without
duplicate trackIds. -/
theorem claim_C5_witness :
    ((storeSongs (addSongs henvV tenvOkV (some setV) "alice" ["q", "q", "bad"]).2).map
      (fun s => s.id)).Nodup
    ∧ ((storeSongs (replaceSongs henvV tenvOkV (some setV) "alice" ["x", "x", "q"]).2).map
      (fun s => s.id)).Nodup :=
  claim_C5 henvV tenvOkV setV "alice" ["q", "q", "bad"] ["x", "x", "q"] (by decide)

/-- Collection with a user-supplied stored image and no songs. -/
def setC6 : SetDoc :=
  { name := "n", createdBy := "alice", collaborators := [], songs := []
  , images := ["u"], tags := [] }

/-- Upstream track "x" carrying no album artwork. -/
def trackX : SpotifyTrack := { id := "x", name := "X", artists := [], albumImage := none }

/-- Hydration environment resolving exactly the chunk ["x"]. -/
def henvC6 : HydrateEnv :=
  { store := [], now := 0
  , upstream := fun c => if c = ["x"] then some [some trackX] else none }

/-- Song produced by hydrating trackX. -/
def songX6 : SetSong := { id := "x", title := "X", artists := [], image := none }

/-- Cache document produced by hydrating trackX at clock 0. -/
def docX6 : TrackCacheDoc :=
  { trackId := "x", name := "X", artists := [], albumImage := none, updatedAt := 0 }

/-- Collection stored after the counterexample addSongs call: songs were
persisted, the derived images are empty, yet the stored images remain the
stale user-supplied value. -/
def setC6add : SetDoc :=
  { name := "n", createdBy := "alice", collaborators := [], songs := [songX6]
  , images := ["u"], tags := [] }

/-- Result of the counterexample addSongs call. -/
def rC6add : AddResult :=
  { songs := [songX6], added := 1, addedTracks := [docX6], skipped := [] }

/-- Claim C6 as frozen says every successful addSongs persists the
derived images, the empty case becoming empty storage.  Falsified: adding
a track without artwork to an empty list derives zero artwork URLs, the
guarded update is skipped, and the stale stored images survive. -/
theorem claim_C6_counterexample :
    addSongs henvC6 tenvOkV (some setC6) "alice" ["x"] = (Except.ok rC6add, some setC6add)
    ∧ setC6add.images = ["u"]
    ∧ imagesFromSongs setC6add.songs = []
    ∧ (["u"] : List String) ≠ [] :=
  ⟨rfl, rfl, rfl, by decide⟩

/-- Result of the witness replaceSongs call on setC6. -/
def rC6rep : ReplaceResult :=
  { songs := [songX6], removedCount := 0, removed := [], orderChanged := true, length := 1 }

/-- Collection stored after the witness replaceSongs call: the images are
unconditionally rewritten to the (here empty) derived value. -/
def setC6rep : SetDoc :=
  { name := "n", createdBy := "alice", collaborators := [], songs := [songX6]
  , images := [], tags := [] }

/-- Witness for the amended claim C6 at concrete inputs: the replace path
rewrote the stored images to the empty derived value, while the add path
left the stale stored images in place because the derived value was
empty. -/
theorem claim_C6_witness :
    setC6rep.images = imagesFromSongs setC6rep.songs
    ∧ (setC6add.songs = rC6add.songs
        ∧ ((rC6add.added = 0 ∧ setC6add = setC6)
            ∨ setC6add.images = (if (imagesFromSongs rC6add.songs).isEmpty then setC6.images
                else imagesFromSongs rC6add.songs))) :=
  ⟨(claim_C6_amended henvC6 tenvOkV setC6 "alice" ["x"] ["x"]).1 rC6rep setC6rep rfl,
   (claim_C6_amended henvC6 tenvOkV setC6 "alice" ["x"] ["x"]).2 rC6add setC6add rfl⟩

/-- Result of emptying setV via replaceSongs with []. -/
def rC9 : ReplaceResult :=
  { songs := [], removedCount := 1, removed := [songV], orderChanged := true, length := 0 }

/-- Collection stored after emptying setV. -/
def setC9 : SetDoc :=
  { name := "n", createdBy := "alice", collaborators := [], songs := []
  , images := [], tags := [] }

/-- Witness for claim C9: emptying the list reports orderChanged true in
agreement with the id sequences differing, and replaying the current ids
in order is a successful no-op with orderChanged false and removedCount
0. -/
theorem claim_C9_witness :
    (rC9.orderChanged = true
      ↔ rC9.songs.map (fun s => s.id) ≠ setV.songs.map (fun s => s.id))
    ∧ replaceSongs henvV tenvOkV (some setV) "alice" (setV.songs.map (fun s => s.id))
        = (Except.ok { songs := setV.songs, removedCount := 0, removed := []
                     , orderChanged := false, length := setV.songs.length },
           some { setV with images := imagesFromSongs setV.songs }) :=
  ⟨claim_C9.1 henvV tenvOkV setV "alice" [] rC9 (some setC9) rfl,
   claim_C9.2 henvV tenvOkV setV "alice" (by decide) (by decide) (by decide)⟩

/-- Failed batch group of the C7 witness: 50 stale ids whose upstream
call fails. -/
def badChunkW : List String :=
  ["p00", "p01", "p02", "p03", "p04", "p05", "p06", "p07", "p08", "p09",
   "p10", "p11", "p12", "p13", "p14", "p15", "p16", "p17", "p18", "p19",
   "p20", "p21", "p22", "p23", "p24", "p25", "p26", "p27", "p28", "p29",
   "p30", "p31", "p32", "p33", "p34", "p35", "p36", "p37", "p38", "p39",
   "p40", "p41", "p42", "p43", "p44", "p45", "p46", "p47", "p48", "p49"]

/-- Input ids of the C7 witness: the failed group followed by "q". -/
def idsW : List String := badChunkW ++ ["q"]

/-- Hydration environment of the C7 witness: empty cache, the upstream
answers only the second group ["q"]. -/
def envW7 : HydrateEnv :=
  { store := [], now := 0
  , upstream := fun c => if c = ["q"] then some [some trackQ] else none }

/-- Witness for claim C7: with 51 missing ids split into two groups and
the first group's upstream call failing, hydrate still returns the record
of the successful second group and omits exactly the failed group's
ids. -/
theorem claim_C7_witness :
    (getManyWithHydrate envW7 none idsW).map (fun d => d.trackId)
      = idsW.filter (fun id => !badChunkW.contains id) :=
  claim_C7 envW7 none idsW badChunkW (by decide) (by decide) (by decide) (by decide)

end GoodVibes
